import Mathlib

/-!
Verification of the Microkubes/backends MongoDB repository layer
(`src/mongodb.go`, `src/helper.go`) against its natural-language
specification.

Shallow embedding conventions:
* Go `interface{}` values appearing in filters and records are embedded as
  the inductive `Backends.Value`; Go maps (`map[string]interface{}`,
  `bson.M`, filters, records) are association lists with Go map semantics
  (set replaces an existing key, delete removes it).
* `bson.ObjectId` is its 12-byte content, a `List Nat`; the hex codec is the
  standard `encoding/hex` semantics (decode accepts both letter cases,
  encode emits lowercase).
* Backend round trips (`mgo` collection calls `Find(..).One`, `Find(..).All`,
  `Insert`, `Update`, `Remove`, `RemoveAll`, `EnsureIndex`) are parameters of
  the embedded operations: each operation takes the backend's response as an
  explicit argument and the embedding captures exactly how the repository
  code reacts to it.
* A Go panic (failed type assertion) is the `panicked` constructor of the
  result types; fallible code returns an error constructor.
-/

namespace Backends

/-- Go `interface{}` values that occur in filters, records and translated
queries: strings, numbers, booleans, `bson.ObjectId`, `[]bson.ObjectId`,
`[]string`, `map[string]string`, and `map[string]interface{}` (which is also
`bson.M`). -/
inductive Value where
  | vStr : String → Value
  | vInt : Int → Value
  | vBool : Bool → Value
  | vObjId : List Nat → Value
  | vObjIdList : List (List Nat) → Value
  | vStrList : List String → Value
  | vMapSS : List (String × String) → Value
  | vMapSI : List (String × Value) → Value

/-- A BSON document / Go `map[string]interface{}`, as an association list. -/
abbrev Rec := List (String × Value)

/-- The backend-agnostic filter type (`type Filter map[string]interface{}`). -/
abbrev Filter := List (String × Value)

/-- Go map read `m[k]`. -/
def lookupKey (k : String) : List (String × Value) → Option Value
  | [] => none
  | (k2, v) :: rest => if k2 = k then some v else lookupKey k rest

/-- Go map read on a `map[string]string`. -/
def lookupStr (k : String) : List (String × String) → Option String
  | [] => none
  | (k2, v) :: rest => if k2 = k then some v else lookupStr k rest

/-- Go `delete(m, k)`. -/
def eraseKey (k : String) : List (String × Value) → List (String × Value)
  | [] => []
  | (k2, v) :: rest => if k2 = k then eraseKey k rest else (k2, v) :: eraseKey k rest

/-- Go map write `m[k] = v` (replaces an existing binding, else appends). -/
def insertKey (k : String) (v : Value) : List (String × Value) → List (String × Value)
  | [] => [(k, v)]
  | (k2, v2) :: rest => if k2 = k then (k, v) :: rest else (k2, v2) :: insertKey k v rest

/-- `true` exactly when the Go dynamic type of the value is `string`
(the type assertion `x.(string)` succeeds). -/
def isGoString : Value → Bool
  | .vStr _ => true
  | _ => false

/-- Go `strings.Split` with a one-character separator, on character lists. -/
def splitOnChar (sep : Char) : List Char → List (List Char)
  | [] => [[]]
  | c :: rest =>
    match splitOnChar sep rest with
    | r :: rs => if c = sep then [] :: r :: rs else (c :: r) :: rs
    | [] => [[]]

/-- Go `strings.Split(s, ",")`. -/
def goSplitComma (s : String) : List String :=
  (splitOnChar ',' s.toList).map String.mk

/-- Go `strings.Contains(s, ",")` (one-character substring). -/
def goContainsComma (s : String) : Bool :=
  s.toList.contains ','

/-! ## Hex codec and `bson.ObjectId`

Semantics of Go `encoding/hex` as used by `bson.IsObjectIdHex` /
`bson.ObjectIdHex` / `ObjectId.Hex`: decoding accepts upper- and lowercase
hex digits, encoding produces lowercase. -/

/-- Decode one hex digit (Go `encoding/hex.fromHexChar`): accepts
`0-9`, `a-f` and `A-F`. -/
def fromHexDigit (c : Char) : Option Nat :=
  if 48 ≤ c.toNat ∧ c.toNat ≤ 57 then some (c.toNat - 48)
  else if 97 ≤ c.toNat ∧ c.toNat ≤ 102 then some (c.toNat - 87)
  else if 65 ≤ c.toNat ∧ c.toNat ≤ 70 then some (c.toNat - 55)
  else none

/-- Encode one hex digit as Go `encoding/hex` does: lowercase. -/
def toHexDigit (n : Nat) : Char :=
  if n < 10 then Char.ofNat (48 + n) else Char.ofNat (87 + n)

/-- Go `hex.DecodeString` on a character list: consumes pairs of hex digits,
fails on an odd length or a non-hex character. -/
def hexDecodeList : List Char → Option (List Nat)
  | [] => some []
  | c1 :: c2 :: rest =>
    match fromHexDigit c1, fromHexDigit c2, hexDecodeList rest with
    | some n1, some n2, some bs => some ((16 * n1 + n2) :: bs)
    | _, _, _ => none
  | [_] => none

/-- Go `hex.EncodeToString` on a byte list. -/
def hexEncodeList : List Nat → List Char
  | [] => []
  | b :: rest => toHexDigit (b / 16) :: toHexDigit (b % 16) :: hexEncodeList rest

/-- A `bson.ObjectId`, by its 12-byte content. -/
abbrev ObjectId := List Nat

/-- `bson.IsObjectIdHex`: length 24 and hex-decodable (either letter case). -/
def IsObjectIdHex (s : String) : Bool :=
  s.length == 24 && (hexDecodeList s.toList).isSome

/-- `bson.ObjectIdHex`: decode the hex string into the 12 raw bytes.  In the
repository every call site is guarded by `IsObjectIdHex`, so the default
value for an undecodable string is never reached. -/
def ObjectIdHex (s : String) : ObjectId :=
  (hexDecodeList s.toList).getD []

/-- `bson.ObjectId.Hex`: lowercase hex encoding of the 12 bytes. -/
def oidHex (oid : ObjectId) : String :=
  String.mk (hexEncodeList oid)

/-! ## Errors and operation results -/

/-- Errors produced by the `mgo` driver, as the repository code
distinguishes them: the sentinel `mgo.ErrNotFound`, a `*mgo.QueryError`
(carrying the server error code), and any other error value. -/
inductive MgoErr where
  | mgoNotFound
  | queryError (code : Int) (msg : String)
  | otherError (msg : String)
deriving DecidableEq

/-- Modelled from the spec: the error kinds of §7 (`InvalidInput`,
`NotFound`, `AlreadyExists`, `BackendError`), whose constructors
(`ErrInvalidInput`, `ErrNotFound`, ...) live in the repository's errors
file, which is not under `src/`.  The extra constructor `native` marks a
backend-native `mgo` error value that the repository code returns without
wrapping it into one of the four kinds. -/
inductive Err where
  | invalidInput (msg : String)
  | notFound (msg : String)
  | alreadyExists (msg : String)
  | backendError (msg : String)
  | native (e : MgoErr)
deriving DecidableEq

/-- Message text of an error (Go `err.Error()`), used when an error is
re-wrapped by a kind constructor. -/
def errMsg : Err → String
  | .invalidInput m => m
  | .notFound m => m
  | .alreadyExists m => m
  | .backendError m => m
  | .native .mgoNotFound => "not found"
  | .native (.queryError _ m) => m
  | .native (.otherError m) => m

/-- Modelled from the spec (§7): `ErrInvalidInput(err)` wraps an existing
error into the `InvalidInput` kind. -/
def ErrInvalidInputOf (e : Err) : Err := .invalidInput (errMsg e)

/-- Result of a helper that mutates the caller's filter map in place
(`stringToObjectID` / `sliceToObjectID`): a panic, an error together with
the (already mutated) map, or success with the updated map. -/
inductive MutRes where
  | panicked
  | errored (e : Err) (f : Filter)
  | ok (f : Filter)

/-- Result of a repository operation: a Go panic, an error return, or a
successful value. -/
inductive OpResult (α : Type) where
  | panicked
  | error (e : Err)
  | ok (v : α)

/-! ## `helper.go`: inbound identity normalization -/

/-- `stringToObjectID` (`helper.go:99-112`): if key `id` is present, delete
it first, then assert it is a `string` (a non-string value is a panic),
validate the hex, and on success store the decoded ObjectId under `_id`.
The check `reflect.TypeOf(id).String() != "bson.ObjectId"` is always true on
the path where the `string` assertion succeeded, so the store is
unconditional. -/
def stringToObjectID (object : Filter) : MutRes :=
  match lookupKey "id" object with
  | none => .ok object
  | some v =>
    match v with
    | .vStr s =>
      let object1 := eraseKey "id" object
      if IsObjectIdHex s then
        .ok (insertKey "_id" (.vObjId (ObjectIdHex s)) object1)
      else
        .errored (.invalidInput "id is a invalid hex representation of an ObjectId") object1
    | _ => .panicked

/-- The loop body of `sliceToObjectID`: validate every comma token and
collect the decoded ObjectIds; the first invalid token aborts with `none`. -/
def buildObjectIds : List String → Option (List ObjectId)
  | [] => some []
  | id :: rest =>
    if IsObjectIdHex id then (buildObjectIds rest).map (fun l => ObjectIdHex id :: l)
    else none

/-- `sliceToObjectID` (`helper.go:115-133`): like `stringToObjectID` but the
`id` value is split on `,` and every token is validated; the decoded list is
stored under `_id` only when all tokens are valid. -/
def sliceToObjectID (object : Filter) : MutRes :=
  match lookupKey "id" object with
  | none => .ok object
  | some v =>
    match v with
    | .vStr s =>
      let object1 := eraseKey "id" object
      match buildObjectIds (goSplitComma s) with
      | some ids =>
        .ok (insertKey "_id" (.vObjIdList ids) object1)
      | none =>
        .errored (.invalidInput "id is a invalid hex representation of an ObjectId") object1
    | _ => .panicked

/-! ## `mongodb.go`: pattern and filter translation

Go strings are modelled as their character lists inside the translation
loop; the `String` wrappers sit at the function boundary. -/

/-- Go `strings.HasPrefix`, on character lists. -/
def listStarts : List Char → List Char → Bool
  | [], _ => true
  | _ :: _, [] => false
  | p :: ps, c :: cs => p = c && listStarts ps cs

/-- Go `strings.HasSuffix`, on character lists. -/
def listEnds (suf l : List Char) : Bool :=
  listStarts suf.reverse l.reverse

/-- The rune loop of `toMongoPattern` (`mongodb.go:455-479`), with the
`prev` state variable and the accumulated output made explicit.  `%`
becomes `.*`, `%%` becomes a literal `%`, a NUL rune is dropped, every
other rune is copied. -/
def toMongoPatternLoop : List Char → Char → List Char → List Char
  | [], prev, acc => if prev = '%' then acc ++ ['.', '*'] else acc
  | r :: rest, prev, acc =>
    if r = '%' then
      if prev = '%' then toMongoPatternLoop rest (Char.ofNat 0) (acc ++ ['%'])
      else toMongoPatternLoop rest '%' acc
    else
      let acc1 := if prev = '%' then acc ++ ['.', '*'] else acc
      let acc2 := if r = Char.ofNat 0 then acc1 else acc1 ++ [r]
      toMongoPatternLoop rest r acc2

/-- `toMongoPattern` on the character list: run the rune loop, then anchor
with `^` unless the expansion starts with `.*`, and with `$` unless it ends
with `.*` (`mongodb.go:481-486`). -/
def toMongoPatternList (pat : List Char) : List Char :=
  let m := toMongoPatternLoop pat (Char.ofNat 0) []
  let m1 := if listStarts ['.', '*'] m then m else '^' :: m
  let m2 := if listEnds ['.', '*'] m1 then m1 else m1 ++ ['$']
  m2

/-- `toMongoPattern` (`mongodb.go:452-488`). -/
def toMongoPattern (pattern : String) : String :=
  String.mk (toMongoPatternList pattern.toList)

/-- `toMongoFilter` (`mongodb.go:416-450`), entry by entry.  A
`map[string]string` value is a pattern descriptor: with a `$pattern` key it
becomes `bson.M{"$regex": ...}`, without one the whole translation fails.
A `string` value splitting into several comma tokens becomes
`bson.M{"$in": tokens}`; a `[]bson.ObjectId` of length over one becomes
`bson.M{"$in": ids}`; every other value is copied for exact matching. -/
def toMongoFilter : Filter → Except String Filter
  | [] => .ok []
  | (key, value) :: rest =>
    match value with
    | .vMapSS specs =>
      match lookupStr "$pattern" specs with
      | some pattern =>
        (toMongoFilter rest).map
          (fun r => (key, .vMapSI [("$regex", .vStr (toMongoPattern pattern))]) :: r)
      | none => .error "unknown filter specification - supported type is $pattern"
    | .vStr s =>
      if (goSplitComma s).length > 1 then
        (toMongoFilter rest).map (fun r => (key, .vMapSI [("$in", .vStrList (goSplitComma s))]) :: r)
      else
        (toMongoFilter rest).map (fun r => (key, .vStr s) :: r)
    | .vObjIdList ids =>
      if ids.length > 1 then
        (toMongoFilter rest).map (fun r => (key, .vMapSI [("$in", .vObjIdList ids)]) :: r)
      else
        (toMongoFilter rest).map (fun r => (key, .vObjIdList ids) :: r)
    | v =>
      (toMongoFilter rest).map (fun r => (key, v) :: r)

/-! ## `mongodb.go`: provisioning (`PrepareDB`) -/

/-- The error handling of one `EnsureIndex` call inside the index loop of
`PrepareDB` (`mongodb.go:134-145`): `none` means the loop continues, `some`
is the function's error return.  A `*mgo.QueryError` never reaches the
`return` (only code 85 is even logged); any non-`QueryError` failure is
returned raw. -/
def ensureIndexStep : Option MgoErr → Option Err
  | none => none
  | some e =>
    match e with
    | .queryError _ _ => none
    | other => some (.native other)

/-- The first fatal error of the index-creation loop, given the outcome of
`EnsureIndex` for each declared index in order. -/
def firstIndexError : List (Option MgoErr) → Option Err
  | [] => none
  | r :: rest =>
    match ensureIndexStep r with
    | some e => some e
    | none => firstIndexError rest

/-- `PrepareDB` (`mongodb.go:118-172`) with the backend's `EnsureIndex`
responses as parameters: `indexResults` is the outcome per declared index,
`ttlIndexResult` the outcome for the TTL expiry index.  `none` means the
collection is returned (construction succeeds); `some e` is the error
return. -/
def PrepareDB (indexResults : List (Option MgoErr)) (enableTTL : Bool) (ttl : Int)
    (ttlField : String) (ttlIndexResult : Option MgoErr) : Option Err :=
  match firstIndexError indexResults with
  | some e => some e
  | none =>
    if enableTTL then
      if ttlField = "" then
        some (.backendError "TTL attribute is reqired when TTL is enabled")
      else if ttl = 0 then
        some (.backendError "TTL value is missing and must be greater than zero")
      else
        match ttlIndexResult with
        | some e => some (.native e)
        | none => none
    else none

/-! ## `mongodb.go`: CRUD operations

The backend round trip of each operation is a parameter describing the
`mgo` call's outcome. -/

/-- Outcome of `c.Find(filter).One(&record)`. -/
inductive OneResult where
  | found (r : Rec)
  | notFound
  | failed (e : MgoErr)

/-- An element of the result slice of `GetAll`: either a decoded
`map[string]...` document or a struct value (whose fields the reflection
walk of `GetAll` never touches, because it only handles map kinds). -/
inductive Item where
  | mapItem (m : Rec)
  | structItem (fields : List (String × Value))

/-- Outcome of `query.All(slicePointer.Interface())`. -/
inductive ListResult where
  | ok (items : List Item)
  | failed (e : MgoErr)

/-- Outcome of `c.Insert(payload)`. -/
inductive InsertResult where
  | ok
  | dupKey
  | failed (e : MgoErr)

/-- Outcome of `c.Update(filter, ...)`. -/
inductive UpdateResult where
  | ok
  | notFound
  | dupKey
  | failed (e : MgoErr)

/-- Outcome of `c.Remove(filter)` / `c.RemoveAll(filter)`. -/
inductive RemoveResult where
  | ok
  | notFound
  | failed (e : MgoErr)

/-- The outbound identity normalization of `GetOne` (`mongodb.go:194-198`):
`record["_id"]` is asserted to be a `bson.ObjectId` (anything else,
including a missing key, is a panic) and its hex is stored under `_id`
(custom ID) or under `id` (default).  Note the raw `_id` entry is kept in
the non-custom case. -/
def getOneOutbound (customID : Bool) (record : Rec) : Option Rec :=
  match lookupKey "_id" record with
  | some (.vObjId oid) =>
    if customID then some (insertKey "_id" (.vStr (oidHex oid)) record)
    else some (insertKey "id" (.vStr (oidHex oid)) record)
  | _ => none

/-- `MongoSession.GetOne` (`mongodb.go:175-206`).  The `MapToInterface`
json round trip into the caller's result value is modelled as returning the
record content itself.  Both branches of the error check after `One` return
the driver's error value unwrapped. -/
def GetOne (customID : Bool) (filter : Filter) (queryRes : OneResult) : OpResult Rec :=
  match (if customID then MutRes.ok filter else stringToObjectID filter) with
  | .panicked => .panicked
  | .errored e _ => .error e
  | .ok _ =>
    match queryRes with
    | .notFound => .error (.native .mgoNotFound)
    | .failed e => .error (.native e)
    | .found record =>
      match getOneOutbound customID record with
      | none => .panicked
      | some record1 => .ok record1

/-- The per-element normalization of `GetAll` (`mongodb.go:263-297`): only
elements of map kind whose `_id` is a `bson.ObjectId` are rewritten — the
hex replaces `_id` (custom ID) or is stored under `id` with `_id` removed
(default); struct elements and all other maps pass through unchanged. -/
def normalizeItem (customID : Bool) : Item → Item
  | .structItem fields => .structItem fields
  | .mapItem m =>
    match lookupKey "_id" m with
    | some (.vObjId oid) =>
      if customID then .mapItem (insertKey "_id" (.vStr (oidHex oid)) m)
      else .mapItem (eraseKey "_id" (insertKey "id" (.vStr (oidHex oid)) m))
    | _ => .mapItem m

/-- `MongoSession.GetAll` (`mongodb.go:209-300`).  Inbound: only when key
`id` is present is it asserted to be a `string` (panic otherwise); a value
containing a comma goes through `sliceToObjectID`, otherwise
`stringToObjectID`, with errors wrapped as `InvalidInput`; then the filter
is translated.  Sort, skip and limit only shape the backend query, which is
the `queryRes` parameter.  On success every element is normalized by
`normalizeItem`. -/
def GetAll (customID : Bool) (filter : Filter) (queryRes : ListResult) :
    OpResult (List Item) :=
  let inbound : MutRes :=
    if customID then .ok filter
    else
      match lookupKey "id" filter with
      | none => .ok filter
      | some v =>
        match v with
        | .vStr s =>
          if goContainsComma s then sliceToObjectID filter else stringToObjectID filter
        | _ => .panicked
  match inbound with
  | .panicked => .panicked
  | .errored e _ => .error (ErrInvalidInputOf e)
  | .ok filter1 =>
    match toMongoFilter filter1 with
    | .error msg => .error (.invalidInput msg)
    | .ok _ =>
      match queryRes with
      | .failed e =>
        if e = .mgoNotFound then .error (.notFound (errMsg (.native e)))
        else .error (.native e)
      | .ok items => .ok (items.map (normalizeItem customID))

/-- `MongoSession.Save` (`mongodb.go:303-370`), with the payload already in
canonical map form (`InterfaceToMap`).  Insert mode (`filter = none`):
attach the generated `_id`, strip a caller `id` unless custom ID, insert;
a duplicate key is `AlreadyExists`, other failures are returned raw; on
success the hex `id` is attached back.  Update mode: normalize the filter
(errors wrapped as `InvalidInput`), strip `_id` from the payload, update
(`NotFound` / `AlreadyExists` / raw), then re-fetch through `GetOne` on the
mutated filter. -/
def Save (customID : Bool) (payload : Rec) (filter : Option Filter) (newId : ObjectId)
    (insertRes : InsertResult) (updateRes : UpdateResult) (getOneRes : OneResult) :
    OpResult Rec :=
  match filter with
  | none =>
    let payload1 := insertKey "_id" (.vObjId newId) payload
    let payload2 := if customID then payload1 else eraseKey "id" payload1
    match insertRes with
    | .dupKey => .error (.alreadyExists "record already exists!")
    | .failed e => .error (.native e)
    | .ok =>
      let payload3 :=
        if customID then payload2 else insertKey "id" (.vStr (oidHex newId)) payload2
      .ok payload3
  | some flt =>
    match (if customID then MutRes.ok flt else stringToObjectID flt) with
    | .panicked => .panicked
    | .errored e _ => .error (ErrInvalidInputOf e)
    | .ok flt1 =>
      let _payload1 := eraseKey "_id" payload
      match updateRes with
      | .notFound => .error (.notFound "not found")
      | .dupKey => .error (.alreadyExists "record already exists!")
      | .failed e => .error (.native e)
      | .ok => GetOne customID flt1 getOneRes

/-- `MongoSession.DeleteOne` (`mongodb.go:373-392`). -/
def DeleteOne (customID : Bool) (filter : Filter) (removeRes : RemoveResult) :
    OpResult Unit :=
  match (if customID then MutRes.ok filter else stringToObjectID filter) with
  | .panicked => .panicked
  | .errored e _ => .error (ErrInvalidInputOf e)
  | .ok _ =>
    match removeRes with
    | .notFound => .error (.notFound "not found")
    | .failed e => .error (.native e)
    | .ok => .ok ()

/-- `MongoSession.DeleteAll` (`mongodb.go:395-414`). -/
def DeleteAll (customID : Bool) (filter : Filter) (removeRes : RemoveResult) :
    OpResult Unit :=
  match (if customID then MutRes.ok filter else stringToObjectID filter) with
  | .panicked => .panicked
  | .errored e _ => .error (ErrInvalidInputOf e)
  | .ok _ =>
    match removeRes with
    | .notFound => .error (.notFound "not found")
    | .failed e => .error (.native e)
    | .ok => .ok ()

/-! ## Semantics of the produced `$regex` queries

MongoDB evaluates a `$regex` query with PCRE semantics and substring
matching (the pattern may match anywhere unless anchored).  The fragment
the translator can emit — literal characters, `.` for any character, a
postfix `*`, and `^` / `$` anchors at the ends — is given its standard
semantics below; a pattern using any other metacharacter is outside the
modelled fragment and the matcher answers `none`. -/

/-- A regex atom of the modelled fragment: one literal character or `.`. -/
inductive RAtom where
  | rchar (c : Char)
  | rdot

/-- A piece: one atom, or an atom under a postfix `*`. -/
inductive RPiece where
  | once (a : RAtom)
  | star (a : RAtom)

/-- PCRE metacharacters.  Any of these except `.` puts a pattern outside
the modelled fragment. -/
def metaChar (c : Char) : Bool :=
  ['.', '*', '+', '?', '[', ']', '(', ')', '\x7b', '\x7d', '^', '$', '|', '\\'].contains c

/-- Parse the body of a pattern (anchors already stripped) into pieces;
`none` for anything outside the modelled fragment. -/
def parseBody : List Char → Option (List RPiece)
  | [] => some []
  | c :: rest =>
    if metaChar c ∧ c ≠ '.' then none
    else
      let a : RAtom := if c = '.' then .rdot else .rchar c
      match rest with
      | [] => some [RPiece.once a]
      | c2 :: rest2 =>
        if c2 = '*' then (parseBody rest2).map (fun ps => RPiece.star a :: ps)
        else (parseBody (c2 :: rest2)).map (fun ps => RPiece.once a :: ps)

/-- Does the atom match one character? -/
def matchAtom : RAtom → Char → Bool
  | .rchar c, d => c = d
  | .rdot, _ => true

/-- The suffixes a starred atom can leave behind: consume zero or more
matching characters from the front. -/
def starDrops (a : RAtom) : List Char → List (List Char)
  | [] => [[]]
  | c :: cs => (c :: cs) :: (if matchAtom a c then starDrops a cs else [])

/-- Does the piece list match the whole character list? -/
def matchPieces : List RPiece → List Char → Bool
  | [], cs => cs.isEmpty
  | .once a :: ps, cs =>
    match cs with
    | [] => false
    | c :: cs2 => matchAtom a c && matchPieces ps cs2
  | .star a :: ps, cs => (starDrops a cs).any (fun rest => matchPieces ps rest)

/-- Whether a `$regex` query with the given pattern matches the given
string: strip a leading `^` and a trailing `$`, parse the body, and demand
a whole / leading / trailing / inner match according to the anchors.
`none` when the pattern is outside the modelled fragment. -/
def regexAccepts (pat s : String) : Option Bool :=
  let cs := pat.toList
  let p1 : Bool × List Char :=
    match cs with
    | '^' :: rest => (true, rest)
    | _ => (false, cs)
  let anchS := p1.1
  let cs1 := p1.2
  let anchE : Bool := cs1.getLast? == some '$'
  let body := if anchE then cs1.dropLast else cs1
  match parseBody body with
  | none => none
  | some ps =>
    let sl := s.toList
    some (
      if anchS && anchE then matchPieces ps sl
      else if anchS then sl.inits.any (fun t => matchPieces ps t)
      else if anchE then sl.tails.any (fun t => matchPieces ps t)
      else sl.tails.any (fun t => t.inits.any (fun u => matchPieces ps u)))

/-! ## Spec-side definition for the refinement claim about `GetAll` -/

/-- The identity rewriting applied to the fields of one result element, as
the spec words it: an ObjectId under `_id` is rewritten to a hex string
under public `id` (default) or to hex under `_id` (custom ID). -/
def specOutboundFields (customID : Bool) (fields : List (String × Value)) :
    List (String × Value) :=
  match lookupKey "_id" fields with
  | some (.vObjId oid) =>
    if customID then insertKey "_id" (.vStr (oidHex oid)) fields
    else eraseKey "_id" (insertKey "id" (.vStr (oidHex oid)) fields)
  | _ => fields

/-- Modelled from the spec's words for the claim about `GetAll`: every
result element undergoes the outbound identity normalization, applied
uniformly whether the element is a struct or a map. -/
def specOutboundNormalizeItem (customID : Bool) : Item → Item
  | .mapItem m => .mapItem (specOutboundFields customID m)
  | .structItem fields => .structItem (specOutboundFields customID fields)

/-- Observation function on items used to separate unequal items: the
value of field `k`, read from the fields of either constructor. -/
def itemField (k : String) : Item → Option Value
  | .mapItem m => lookupKey k m
  | .structItem fields => lookupKey k fields

/-- Does the translation reject the filter? -/
def isTranslationError : Except String Filter → Bool
  | .error _ => true
  | .ok _ => false

/-- A safe literal character for the pattern language: not a PCRE
metacharacter, not the `%` wildcard, not NUL. -/
def safeLit (c : Char) : Bool :=
  !metaChar c && c ≠ '%' && c ≠ Char.ofNat 0

/-- A lowercase hex digit (`0-9`, `a-f`). -/
def isLowerHexDigit (c : Char) : Bool :=
  (48 ≤ c.toNat && c.toNat ≤ 57) || (97 ≤ c.toNat && c.toNat ≤ 102)

/-- A canonical (lowercase) 24-character hex identity string. -/
def isLowerHex24 (s : String) : Bool :=
  s.length == 24 && s.toList.all isLowerHexDigit

/-! ## Association-list lemmas (Go map semantics) -/

theorem lookup_insert_self (k : String) (v : Value) (m : List (String × Value)) :
    lookupKey k (insertKey k v m) = some v := by
  induction m with
  | nil => simp [insertKey, lookupKey]
  | cons kv rest ih =>
    cases kv with
    | mk k2 v2 =>
      by_cases h : k2 = k
      · simp [insertKey, lookupKey, h]
      · simp [insertKey, lookupKey, h, ih]

theorem lookup_insert_ne (k k2 : String) (v : Value) (m : List (String × Value))
    (h : k2 ≠ k) : lookupKey k2 (insertKey k v m) = lookupKey k2 m := by
  induction m with
  | nil => simp [insertKey, lookupKey, Ne.symm h]
  | cons kv rest ih =>
    cases kv with
    | mk k3 v3 =>
      by_cases h3 : k3 = k
      · subst h3
        simp [insertKey, lookupKey, Ne.symm h]
      · simp only [insertKey, if_neg h3, lookupKey]
        by_cases h4 : k3 = k2
        · simp [h4]
        · simp [h4, ih]

theorem lookup_erase_self (k : String) (m : List (String × Value)) :
    lookupKey k (eraseKey k m) = none := by
  induction m with
  | nil => simp [eraseKey, lookupKey]
  | cons kv rest ih =>
    cases kv with
    | mk k2 v2 =>
      by_cases h : k2 = k
      · simp [eraseKey, h, ih]
      · simp [eraseKey, h, lookupKey, ih]

theorem lookup_erase_ne (k k2 : String) (m : List (String × Value)) (h : k2 ≠ k) :
    lookupKey k2 (eraseKey k m) = lookupKey k2 m := by
  induction m with
  | nil => simp [eraseKey, lookupKey]
  | cons kv rest ih =>
    cases kv with
    | mk k3 v3 =>
      by_cases h3 : k3 = k
      · subst h3
        simp [eraseKey, lookupKey, Ne.symm h, ih]
      · by_cases h4 : k3 = k2
        · simp [eraseKey, h3, lookupKey, h4, h]
        · simp [eraseKey, h3, lookupKey, h4, ih]

/-! ## Hex round-trip lemmas -/

theorem lowerHexDigit_roundtrip (c : Char) (h : isLowerHexDigit c = true) :
    ∃ n, fromHexDigit c = some n ∧ n < 16 ∧ toHexDigit n = c := by
  simp only [isLowerHexDigit, Bool.or_eq_true, Bool.and_eq_true, decide_eq_true_eq] at h
  rcases h with ⟨h1, h2⟩ | ⟨h1, h2⟩
  · refine ⟨c.toNat - 48, ?_, by omega, ?_⟩
    · simp only [fromHexDigit]
      rw [if_pos ⟨h1, h2⟩]
    · simp only [toHexDigit]
      rw [if_pos (by omega)]
      have h3 : 48 + (c.toNat - 48) = c.toNat := by omega
      rw [h3, Char.ofNat_toNat]
  · refine ⟨c.toNat - 87, ?_, by omega, ?_⟩
    · simp only [fromHexDigit]
      rw [if_neg (by omega), if_pos ⟨h1, h2⟩]
    · simp only [toHexDigit]
      rw [if_neg (by omega)]
      have h3 : 87 + (c.toNat - 87) = c.toNat := by omega
      rw [h3, Char.ofNat_toNat]

theorem hexList_roundtrip_aux : ∀ (n : Nat) (cs : List Char), cs.length ≤ n →
    (∀ c ∈ cs, isLowerHexDigit c = true) → cs.length % 2 = 0 →
    ∃ bs, hexDecodeList cs = some bs ∧ hexEncodeList bs = cs := by
  intro n
  induction n with
  | zero =>
    intro cs hlen _ _
    have : cs = [] := List.eq_nil_of_length_eq_zero (by omega)
    subst this
    exact ⟨[], rfl, rfl⟩
  | succ n ih =>
    intro cs hlen hmem heven
    match cs with
    | [] => exact ⟨[], rfl, rfl⟩
    | [c] => simp at heven
    | c1 :: c2 :: rest =>
      obtain ⟨n1, hd1, hn1, he1⟩ := lowerHexDigit_roundtrip c1 (hmem c1 (by simp))
      obtain ⟨n2, hd2, hn2, he2⟩ := lowerHexDigit_roundtrip c2 (hmem c2 (by simp))
      obtain ⟨bs, hdec, henc⟩ := ih rest (by simp at hlen; omega)
        (fun c hc => hmem c (by simp [hc])) (by simp at heven ⊢; omega)
      refine ⟨(16 * n1 + n2) :: bs, ?_, ?_⟩
      · simp [hexDecodeList, hd1, hd2, hdec]
      · have hq : (16 * n1 + n2) / 16 = n1 := by omega
        have hr : (16 * n1 + n2) % 16 = n2 := by omega
        simp [hexEncodeList, hq, hr, he1, he2, henc]

theorem hexList_roundtrip (cs : List Char) (hmem : ∀ c ∈ cs, isLowerHexDigit c = true)
    (heven : cs.length % 2 = 0) :
    ∃ bs, hexDecodeList cs = some bs ∧ hexEncodeList bs = cs :=
  hexList_roundtrip_aux cs.length cs le_rfl hmem heven

/-! ## Pattern-translation lemmas -/

theorem safeLit_spec (c : Char) (h : safeLit c = true) :
    metaChar c = false ∧ c ≠ '%' ∧ c ≠ Char.ofNat 0 := by
  simp only [safeLit, Bool.and_eq_true, Bool.not_eq_true', decide_eq_true_eq] at h
  exact ⟨h.1.1, h.1.2, h.2⟩

theorem toMongoPatternLoop_safe : ∀ (cs : List Char) (prev : Char) (acc : List Char),
    (∀ c ∈ cs, safeLit c = true) → prev ≠ '%' →
    toMongoPatternLoop cs prev acc = acc ++ cs := by
  intro cs
  induction cs with
  | nil =>
    intro prev acc _ hprev
    simp [toMongoPatternLoop, hprev]
  | cons c rest ih =>
    intro prev acc hmem hprev
    obtain ⟨_, hpc, hnul⟩ := safeLit_spec c (hmem c (by simp))
    simp only [toMongoPatternLoop, if_neg hpc, if_neg hprev, if_neg hnul]
    rw [ih c (acc ++ [c]) (fun d hd => hmem d (by simp [hd])) hpc]
    simp

theorem toMongoPatternList_safe (p : List Char) (hmem : ∀ c ∈ p, safeLit c = true) :
    toMongoPatternList p = '^' :: (p ++ ['$']) := by
  have hloop : toMongoPatternLoop p (Char.ofNat 0) [] = p := by
    rw [toMongoPatternLoop_safe p (Char.ofNat 0) [] hmem (by decide)]
    simp
  have hstart : listStarts ['.', '*'] p = false := by
    cases p with
    | nil => rfl
    | cons c rest =>
      obtain ⟨hmc, _, _⟩ := safeLit_spec c (hmem c (by simp))
      have : c ≠ '.' := by
        intro h
        subst h
        simp [metaChar] at hmc
      simp [listStarts, Ne.symm this]
  have hend : listEnds ['.', '*'] ('^' :: p) = false := by
    unfold listEnds
    have h0 : (['.', '*'] : List Char).reverse = ['*', '.'] := rfl
    have h1 : ('^' :: p).reverse = p.reverse ++ ['^'] := List.reverse_cons '^' p
    rw [h0, h1]
    cases hrev : p.reverse with
    | nil => rfl
    | cons c rest =>
      have hc : c ∈ p := by
        rw [← List.mem_reverse, hrev]
        simp
      obtain ⟨hmc, _, _⟩ := safeLit_spec c (hmem c hc)
      have : c ≠ '*' := by
        intro h
        subst h
        simp [metaChar] at hmc
      simp [listStarts, Ne.symm this]
  simp only [toMongoPatternList]
  rw [hloop]
  simp [hstart, hend]

theorem parseBody_safe : ∀ (cs : List Char), (∀ c ∈ cs, safeLit c = true) →
    parseBody cs = some (cs.map (fun c => RPiece.once (RAtom.rchar c))) := by
  intro cs
  induction cs with
  | nil => intro _; rfl
  | cons c rest ih =>
    intro hmem
    obtain ⟨hmc, _, _⟩ := safeLit_spec c (hmem c (by simp))
    have hdot : c ≠ '.' := by
      intro h
      subst h
      simp [metaChar] at hmc
    have hcond : ¬(metaChar c = true ∧ c ≠ '.') := by simp [hmc]
    have hrest : parseBody rest = some (rest.map (fun d => RPiece.once (RAtom.rchar d))) :=
      ih (fun d hd => hmem d (by simp [hd]))
    cases rest with
    | nil =>
      have hunf : parseBody [c] =
          if metaChar c = true ∧ c ≠ '.' then none
          else some [RPiece.once (if c = '.' then RAtom.rdot else RAtom.rchar c)] := rfl
      rw [hunf, if_neg hcond, if_neg hdot]
      rfl
    | cons c2 rest2 =>
      obtain ⟨hmc2, _, _⟩ := safeLit_spec c2 (hmem c2 (by simp))
      have hstar : c2 ≠ '*' := by
        intro h
        subst h
        simp [metaChar] at hmc2
      have hunf : parseBody (c :: c2 :: rest2) =
          if metaChar c = true ∧ c ≠ '.' then none
          else if c2 = '*' then
            (parseBody rest2).map
              (fun ps => RPiece.star (if c = '.' then RAtom.rdot else RAtom.rchar c) :: ps)
          else
            (parseBody (c2 :: rest2)).map
              (fun ps => RPiece.once (if c = '.' then RAtom.rdot else RAtom.rchar c) :: ps) := rfl
      rw [hunf, if_neg hcond, if_neg hstar, if_neg hdot, hrest]
      rfl

theorem matchPieces_literal : ∀ (cs : List Char) (sl : List Char),
    matchPieces (cs.map (fun c => RPiece.once (RAtom.rchar c))) sl = true ↔ sl = cs := by
  intro cs
  induction cs with
  | nil =>
    intro sl
    simp [matchPieces, List.isEmpty_iff]
  | cons c rest ih =>
    intro sl
    cases sl with
    | nil => simp [matchPieces]
    | cons d ds =>
      simp only [List.map_cons, matchPieces, matchAtom, Bool.and_eq_true,
        decide_eq_true_eq, ih, List.cons.injEq]
      constructor
      · rintro ⟨h1, h2⟩
        exact ⟨h1.symm, h2⟩
      · rintro ⟨h1, h2⟩
        exact ⟨h1.symm, h2⟩

theorem buildObjectIds_none : ∀ l : List String,
    (∃ t ∈ l, IsObjectIdHex t = false) → buildObjectIds l = none := by
  intro l
  induction l with
  | nil =>
    rintro ⟨t, ht, _⟩
    exact absurd ht (List.not_mem_nil t)
  | cons a rest ih =>
    rintro ⟨t, ht, hinv⟩
    rcases List.mem_cons.mp ht with h | h
    · subst h
      simp [buildObjectIds, hinv]
    · by_cases ha : IsObjectIdHex a
      · simp [buildObjectIds, ha, ih ⟨t, h, hinv⟩]
      · simp [buildObjectIds, ha]

/-! ## Claim theorems -/

/-- C1: `GetOne` on a filter matching zero records is claimed to fail with
a `NotFound`-kind error and never a backend-native error value, while
`GetAll` returns an empty sequence.  Evaluating the code at the failing
input: `GetOne` returns the driver's `mgo.ErrNotFound` unwrapped (both
branches of its not-found check return the raw error), while `GetAll`
indeed returns an empty sequence and no error. -/
theorem c1_getone_leaks_native_notfound :
    GetOne false [("name", .vStr "nobody")] .notFound = .error (.native .mgoNotFound) ∧
    GetAll false [("name", .vStr "nobody")] (.ok []) = .ok [] :=
  ⟨rfl, rfl⟩

/-- C3: during `PrepareDB`, a `*mgo.QueryError` with code 85
(IndexOptionsConflict) is tolerated — but so is a `*mgo.QueryError` with
any other code (e.g. 86), because the `return nil, err` sits only in the
non-`QueryError` branch; only a non-`QueryError` failure is fatal. -/
theorem c3_queryerror_swallowed :
    PrepareDB [some (.queryError 86 "IndexKeySpecsConflict")] false 0 "" none = none ∧
    PrepareDB [some (.queryError 85 "IndexOptionsConflict")] false 0 "" none = none ∧
    PrepareDB [some (.otherError "network error")] false 0 "" none =
      some (.native (.otherError "network error")) :=
  ⟨rfl, rfl, rfl⟩

/-- C5: construction with TTL enabled is claimed to fail with a
`BackendError` whenever `ttlSeconds` is non-positive.  Evaluating the
code: `ttlSeconds = -1` passes the `TTL == 0` check and construction
succeeds; only exactly zero (and an empty `ttlField`) are rejected. -/
theorem c5_negative_ttl_accepted :
    PrepareDB [] true (-1) "expiresAt" none = none ∧
    PrepareDB [] true 0 "expiresAt" none =
      some (.backendError "TTL value is missing and must be greater than zero") ∧
    PrepareDB [] true 5 "" none =
      some (.backendError "TTL attribute is reqired when TTL is enabled") :=
  ⟨rfl, rfl, rfl⟩

/-- C7 counterexample: the pattern `a.c` contains no `%`, yet its
translation matches the string `abc`, which differs from the literal
pattern — so the translation of a `%`-free pattern is not an exact match
of that literal. -/
theorem c7_counterexample :
    regexAccepts (toMongoPattern "a.c") "abc" = some true ∧ ("abc" : String) ≠ "a.c" :=
  ⟨rfl, by decide⟩

/-- C7 amended: for a pattern without `%` that consists only of safe
literal characters (no PCRE metacharacter, no NUL), the translated query
matches exactly the literal pattern and nothing else. -/
theorem c7_amended_exact_match (p s : String)
    (hsafe : ∀ c ∈ p.toList, safeLit c = true) :
    regexAccepts (toMongoPattern p) s = some true ↔ s = p := by
  have hlist : (toMongoPattern p).toList = '^' :: (p.toList ++ ['$']) := by
    show (String.mk (toMongoPatternList p.toList)).toList = _
    rw [toMongoPatternList_safe p.toList hsafe]
    rfl
  have hsplit : ∀ c ∈ p.toList, c ≠ '$' := by
    intro c hc h
    obtain ⟨hmc, _, _⟩ := safeLit_spec c (hsafe c hc)
    subst h
    simp [metaChar] at hmc
  unfold regexAccepts
  rw [hlist]
  simp only [List.getLast?_concat, List.dropLast_concat, beq_self_eq_true, if_pos]
  rw [parseBody_safe p.toList hsafe]
  simp only [Bool.and_self, if_pos, Option.some.injEq]
  constructor
  · intro h
    have h2 := (matchPieces_literal p.toList s.toList).mp h
    exact String.ext h2
  · intro h
    subst h
    exact (matchPieces_literal s.toList s.toList).mpr rfl

/-- C7 witness: the safe pattern `abc` translated and matched against
`abc` itself. -/
theorem c7_amended_witness :
    (∀ c ∈ ("abc" : String).toList, safeLit c = true) ∧
    (regexAccepts (toMongoPattern "abc") "abc" = some true ↔ ("abc" : String) = "abc") :=
  ⟨by decide, c7_amended_exact_match "abc" "abc" (by decide)⟩

/-- C4: a filter whose `id` value is not a `string` makes inbound identity
normalization — and with it `GetOne`, `GetAll`, `Save` in update mode,
`DeleteOne` and `DeleteAll` on a non-custom-ID repository — panic on the
unchecked `id.(string)` type assertion instead of returning an
`InvalidInput` error. -/
theorem c4_nonstring_id_panics (v : Value) (h : isGoString v = false)
    (q : OneResult) (lr : ListResult) (payload : Rec) (nid : ObjectId)
    (ir : InsertResult) (ur : UpdateResult) (dr dr2 : RemoveResult) :
    stringToObjectID [("id", v)] = .panicked ∧
    GetOne false [("id", v)] q = .panicked ∧
    GetAll false [("id", v)] lr = .panicked ∧
    Save false payload (some [("id", v)]) nid ir ur q = .panicked ∧
    DeleteOne false [("id", v)] dr = .panicked ∧
    DeleteAll false [("id", v)] dr2 = .panicked := by
  cases v
  case vStr s => simp [isGoString] at h
  all_goals exact ⟨rfl, rfl, rfl, rfl, rfl, rfl⟩

/-- C4 witness: the integer-valued `id` filter `{id: 7}`. -/
theorem c4_witness :
    isGoString (.vInt 7) = false ∧
    (stringToObjectID [("id", .vInt 7)] = .panicked ∧
      GetOne false [("id", .vInt 7)] .notFound = .panicked ∧
      GetAll false [("id", .vInt 7)] (.ok []) = .panicked ∧
      Save false [] (some [("id", .vInt 7)]) [] .ok .ok .notFound = .panicked ∧
      DeleteOne false [("id", .vInt 7)] .ok = .panicked ∧
      DeleteAll false [("id", .vInt 7)] .ok = .panicked) :=
  ⟨rfl, c4_nonstring_id_panics (.vInt 7) rfl .notFound (.ok []) [] [] .ok .ok .ok .ok⟩

/-- C6 counterexample: a descriptor carrying `$pattern` *and* the extra key
`$x` is not rejected — the extra key is silently ignored and the field is
translated to a regex query. -/
theorem c6_counterexample :
    isTranslationError
      (toMongoFilter [("name", .vMapSS [("$pattern", "abc"), ("$x", "y")])]) = false ∧
    toMongoFilter [("name", .vMapSS [("$pattern", "abc"), ("$x", "y")])] =
      .ok [("name", .vMapSI [("$regex", .vStr "^abc$")])] :=
  ⟨rfl, rfl⟩

/-- C6 amended: a pattern-descriptor value (`map[string]string`) is a
translation error exactly when it lacks the `$pattern` key; when
`$pattern` is present the field becomes a regex query and any other keys
in the descriptor are ignored. -/
theorem c6_amended_pattern_key (key : String) (specs : List (String × String))
    (rest : Filter) :
    (lookupStr "$pattern" specs = none →
      toMongoFilter ((key, .vMapSS specs) :: rest) =
        .error "unknown filter specification - supported type is $pattern") ∧
    (∀ p restOut, lookupStr "$pattern" specs = some p → toMongoFilter rest = .ok restOut →
      toMongoFilter ((key, .vMapSS specs) :: rest) =
        .ok ((key, .vMapSI [("$regex", .vStr (toMongoPattern p))]) :: restOut)) := by
  have hunf : toMongoFilter ((key, .vMapSS specs) :: rest) =
      match lookupStr "$pattern" specs with
      | some pattern =>
        (toMongoFilter rest).map
          (fun r => (key, .vMapSI [("$regex", .vStr (toMongoPattern pattern))]) :: r)
      | none => .error "unknown filter specification - supported type is $pattern" := rfl
  constructor
  · intro h
    rw [hunf, h]
  · intro p restOut hp hrest
    rw [hunf, hp, hrest]
    rfl

/-- C6 amended witness: the descriptor `{$x: y}` without `$pattern` is
rejected. -/
theorem c6_amended_witness :
    lookupStr "$pattern" [("$x", "y")] = none ∧
    toMongoFilter [("name", .vMapSS [("$x", "y")])] =
      .error "unknown filter specification - supported type is $pattern" :=
  ⟨rfl, (c6_amended_pattern_key "name" [("$x", "y")] []).1 rfl⟩

/-- C10: a `map[string]interface{}` value containing `$pattern` is not a
pattern descriptor for the translator (the `map[string]string` type
assertion fails), raises no error, and is copied through as an exact-match
value. -/
theorem c10_mapSI_passthrough (key : String) (m : List (String × Value)) (rest : Filter)
    (restOut : Filter) (_hp : (lookupKey "$pattern" m).isSome = true)
    (hrest : toMongoFilter rest = .ok restOut) :
    toMongoFilter ((key, .vMapSI m) :: rest) = .ok ((key, .vMapSI m) :: restOut) := by
  have hunf : toMongoFilter ((key, .vMapSI m) :: rest) =
      (toMongoFilter rest).map (fun r => (key, .vMapSI m) :: r) := rfl
  rw [hunf, hrest]
  rfl

/-- C10 witness: the generic-map descriptor `{"$pattern": "abc"}` passes
through unchanged. -/
theorem c10_witness :
    (lookupKey "$pattern" [("$pattern", Value.vStr "abc")]).isSome = true ∧
    toMongoFilter [("f", Value.vMapSI [("$pattern", Value.vStr "abc")])] =
      .ok [("f", Value.vMapSI [("$pattern", Value.vStr "abc")])] :=
  ⟨rfl, c10_mapSI_passthrough "f" [("$pattern", Value.vStr "abc")] [] [] rfl rfl⟩

/-- C9: the inbound normalization helpers delete the `id` key from the
caller's filter before validating it: on a malformed hex string they
return an `InvalidInput` error while the map has already lost `id` and
gained no `_id`. -/
theorem c9_mutation_on_error (f : Filter) (s : String)
    (hid : lookupKey "id" f = some (.vStr s)) :
    (IsObjectIdHex s = false →
      stringToObjectID f =
        .errored (.invalidInput "id is a invalid hex representation of an ObjectId")
          (eraseKey "id" f)) ∧
    ((∃ t ∈ goSplitComma s, IsObjectIdHex t = false) →
      sliceToObjectID f =
        .errored (.invalidInput "id is a invalid hex representation of an ObjectId")
          (eraseKey "id" f)) ∧
    lookupKey "id" (eraseKey "id" f) = none ∧
    lookupKey "_id" (eraseKey "id" f) = lookupKey "_id" f := by
  refine ⟨?_, ?_, lookup_erase_self "id" f, lookup_erase_ne "id" "_id" f (by decide)⟩
  · intro hinv
    unfold stringToObjectID
    rw [hid]
    simp [hinv]
  · intro hex
    unfold sliceToObjectID
    rw [hid]
    simp [buildObjectIds_none _ hex]

/-- C9 witness: the malformed id `zz`. -/
theorem c9_witness :
    lookupKey "id" [("id", .vStr "zz")] = some (.vStr "zz") ∧
    stringToObjectID [("id", .vStr "zz")] =
      .errored (.invalidInput "id is a invalid hex representation of an ObjectId") [] ∧
    sliceToObjectID [("id", .vStr "zz")] =
      .errored (.invalidInput "id is a invalid hex representation of an ObjectId") [] := by
  have h := c9_mutation_on_error [("id", .vStr "zz")] "zz" rfl
  exact ⟨rfl, h.1 rfl, h.2.1 ⟨"zz", by decide, rfl⟩⟩

/-- C8 counterexample: the uppercase string `ABCDEF0123456789ABCDEF01` is
accepted as a valid hex identity by the inbound validation, but the
outbound normalization returns the lowercase encoding, so the round trip
does not reproduce it. -/
theorem c8_counterexample :
    IsObjectIdHex "ABCDEF0123456789ABCDEF01" = true ∧
    stringToObjectID [("id", .vStr "ABCDEF0123456789ABCDEF01")] =
      .ok [("_id", .vObjId [171, 205, 239, 1, 35, 69, 103, 137, 171, 205, 239, 1])] ∧
    getOneOutbound false
        [("_id", .vObjId [171, 205, 239, 1, 35, 69, 103, 137, 171, 205, 239, 1])] =
      some [("_id", .vObjId [171, 205, 239, 1, 35, 69, 103, 137, 171, 205, 239, 1]),
        ("id", .vStr "abcdef0123456789abcdef01")] ∧
    ("abcdef0123456789abcdef01" : String) ≠ "ABCDEF0123456789ABCDEF01" :=
  ⟨rfl, rfl, rfl, by decide⟩

/-- C8 amended: for a *lowercase* 24-character hex identity string, the
inbound normalization followed by the outbound normalization reproduces
the string unchanged under public key `id`. -/
theorem c8_amended_roundtrip (h : String) (hlow : isLowerHex24 h = true) :
    ∃ oid, stringToObjectID [("id", .vStr h)] = .ok [("_id", .vObjId oid)] ∧
      getOneOutbound false [("_id", .vObjId oid)] =
        some [("_id", .vObjId oid), ("id", .vStr h)] := by
  simp only [isLowerHex24, Bool.and_eq_true, beq_iff_eq, List.all_eq_true] at hlow
  obtain ⟨hlen, hall⟩ := hlow
  obtain ⟨bs, hdec, henc⟩ := hexList_roundtrip h.toList (fun c hc => hall c hc) (by
    have h24 : h.toList.length = 24 := hlen
    omega)
  have hhex : IsObjectIdHex h = true := by
    have hdec2 : hexDecodeList h.data = some bs := hdec
    simp [IsObjectIdHex, hlen, hdec2]
  have hoid : oidHex (ObjectIdHex h) = h := by
    unfold oidHex ObjectIdHex
    rw [hdec]
    simp only [Option.getD_some]
    rw [henc]
    exact rfl
  refine ⟨ObjectIdHex h, ?_, ?_⟩
  · unfold stringToObjectID
    rw [show lookupKey "id" [("id", Value.vStr h)] = some (.vStr h) from rfl]
    simp [hhex]
    rfl
  · simp [getOneOutbound, lookupKey, insertKey, hoid]

/-- C8 amended witness: the lowercase identity
`0123456789abcdef01234567` round-trips unchanged. -/
theorem c8_amended_witness :
    isLowerHex24 "0123456789abcdef01234567" = true ∧
    ∃ oid, stringToObjectID [("id", .vStr "0123456789abcdef01234567")] =
        .ok [("_id", .vObjId oid)] ∧
      getOneOutbound false [("_id", .vObjId oid)] =
        some [("_id", .vObjId oid), ("id", .vStr "0123456789abcdef01234567")] :=
  ⟨rfl, c8_amended_roundtrip "0123456789abcdef01234567" rfl⟩

/-- C2 counterexample: a struct element whose `_id` field holds an
ObjectId passes through `GetAll`'s normalization untouched, whereas the
claimed uniform GetOne-style normalization would rewrite it — the
normalization is not applied to struct elements. -/
theorem c2_counterexample :
    normalizeItem false (.structItem [("_id", .vObjId (List.replicate 12 0))]) ≠
      specOutboundNormalizeItem false (.structItem [("_id", .vObjId (List.replicate 12 0))]) := by
  intro h
  have h2 := congrArg (itemField "id") h
  rw [show itemField "id"
        (normalizeItem false (.structItem [("_id", .vObjId (List.replicate 12 0))])) =
      none from rfl,
    show itemField "id"
        (specOutboundNormalizeItem false
          (.structItem [("_id", .vObjId (List.replicate 12 0))])) =
      some (.vStr "000000000000000000000000") from rfl] at h2
  exact Option.noConfusion h2

/-- C2 amended: a successful `GetAll` maps the per-element normalization
over the result; a *map* element with an ObjectId `_id` gets `id` set to
its hex with `_id` removed (or `_id` replaced by hex when custom ID),
while *struct* elements are returned exactly as fetched. -/
theorem c2_amended_normalization (cid : Bool) (items : List Item) (m : Rec)
    (oid : ObjectId) (fields : List (String × Value))
    (hm : lookupKey "_id" m = some (.vObjId oid)) :
    GetAll cid [] (.ok items) = .ok (items.map (normalizeItem cid)) ∧
    (∃ m2, normalizeItem false (.mapItem m) = .mapItem m2 ∧
      lookupKey "id" m2 = some (.vStr (oidHex oid)) ∧
      lookupKey "_id" m2 = none) ∧
    (∃ m3, normalizeItem true (.mapItem m) = .mapItem m3 ∧
      lookupKey "_id" m3 = some (.vStr (oidHex oid))) ∧
    normalizeItem cid (.structItem fields) = .structItem fields := by
  refine ⟨?_, ?_, ?_, ?_⟩
  · cases cid <;> rfl
  · refine ⟨eraseKey "_id" (insertKey "id" (.vStr (oidHex oid)) m), ?_, ?_, ?_⟩
    · simp [normalizeItem, hm]
    · rw [lookup_erase_ne "_id" "id" _ (by decide), lookup_insert_self]
    · exact lookup_erase_self "_id" _
  · refine ⟨insertKey "_id" (.vStr (oidHex oid)) m, ?_, ?_⟩
    · simp [normalizeItem, hm]
    · exact lookup_insert_self "_id" _ m
  · cases cid <;> rfl

/-- C2 amended witness: a singleton map element with a zero ObjectId. -/
theorem c2_amended_witness :
    lookupKey "_id" [("_id", Value.vObjId (List.replicate 12 0))] =
      some (.vObjId (List.replicate 12 0)) ∧
    (∃ m2, normalizeItem false (.mapItem [("_id", .vObjId (List.replicate 12 0))]) =
        .mapItem m2 ∧
      lookupKey "id" m2 = some (.vStr (oidHex (List.replicate 12 0))) ∧
      lookupKey "_id" m2 = none) :=
  ⟨rfl,
    (c2_amended_normalization false [] [("_id", .vObjId (List.replicate 12 0))]
      (List.replicate 12 0) [] rfl).2.1⟩

end Backends
